import Mathlib

/-!
Verification of the ApplicationPool2 Pool orchestrator
(src/ext/common/ApplicationPool2/Pool.h) against its natural-language
specification.

The Pool class is shallowly embedded: the pool's own logic (asyncGet,
assignSessionsToGetWaiters, setMax, detachGroupByName, disableProcess,
restartGroupByName, restartGroupsByAppRoot, prepareForShutdown, destroy,
capacityUsedUnlocked, atFullCapacityUnlocked, forceFreeCapacity,
forceDetachGroup, getProcesses, findProcessByGupid, findMatchingGroup,
createGroup, createGroupAndAsyncGetFromIt) is translated from the source.
The collaborators that the repository consumes only through a contract
(Group, Process, Options, the GroupMap container, findOldestIdleProcess
from ProcessUtils.cpp) are not part of the source tree; they are modelled
from the specification's description of their contract, and each such
definition is marked accordingly in its doc comment.

Caller-supplied callbacks are modelled by opaque numeric identities;
the deferred post-lock action vector is modelled as an explicit list of
`Action` values returned by each operation, in the order in which the
source would run them after releasing the pool lock.
-/

namespace ApplicationPool2

/-! ## Data model -/

/-- Modelled from the spec: the per-request `Options` record.  The spec
names the consumed fields `appGroupName`, `appRoot`, `minProcesses`,
`noop`, and requires a deep-copy-and-detach-external-transaction
operation for safe persistence on the wait list; `persisted` and
`attachedToTransaction` record the effect of those two operations. -/
structure Options where
  appGroupName : String
  appRoot : String
  minProcesses : Nat
  noop : Bool
  attachedToTransaction : Bool
  persisted : Bool
deriving DecidableEq, Repr

/-- Modelled from the spec: `Options::copyAndPersist`, the deep-persisting
copy taken when an options object is stored on a wait list. -/
def Options.copyAndPersist (o : Options) : Options :=
  { o with persisted := true }

/-- Modelled from the spec: `Options::detachFromUnionStationTransaction`,
which detaches the persisted copy from any external transaction handle. -/
def Options.detachFromUnionStationTransaction (o : Options) : Options :=
  { o with attachedToTransaction := false }

/-- Modelled from the spec: a worker process.  `busyness = 0` means the
process is idle; `lastUsed` orders processes by age for
`findOldestIdleProcess`. -/
structure Process where
  pid : Nat
  gupid : String
  alive : Bool
  busyness : Nat
  lastUsed : Nat
deriving DecidableEq, Repr

/-- Modelled from the spec: a session handle giving a caller exclusive use
of one worker of one group (or a `noop` pseudo-session). -/
structure Session where
  groupName : String
  processGupid : String
  noop : Bool
deriving DecidableEq, Repr

/-- A caller-supplied `GetCallback` is opaque to the pool; it is modelled
by a numeric identity. -/
abbrev GetCallback := Nat

/-- A `GetWaiter` as in the source: a persisted copy of the request
options together with the callback. -/
structure GetWaiter where
  options : Options
  callback : GetCallback
deriving DecidableEq, Repr

/-- One deferred post-lock action.  The source accumulates
`boost::function` closures in a `postLockActions` vector; the embedding
records which closure was appended. -/
inductive Action where
  /-- `callback(session, nil)` scheduled for a satisfied get request. -/
  | callbackSession (cb : GetCallback) (session : Session)
  /-- `callback(nil, exception)` scheduled for an aborted get request. -/
  | callbackException (cb : GetCallback) (message : String)
  /-- the `onDone` callback handed to `Group::shutdown`. -/
  | shutdownDone (groupName : String)
deriving DecidableEq, Repr

/-- The `DisableResult` enumeration referenced by the source
(`DR_DEFERRED` and `DR_NOOP` appear in Pool.h). -/
inductive DisableResult where
  | DR_SUCCESS
  | DR_ERROR
  | DR_DEFERRED
  | DR_NOOP
deriving DecidableEq, Repr

/-- The `LifeStatus` enumeration of Pool.h. -/
inductive LifeStatus where
  | ALIVE
  | PREPARED_FOR_SHUTDOWN
  | SHUTTING_DOWN
  | SHUT_DOWN
deriving DecidableEq, Repr

/-- Position of a life status along the progression
`ALIVE → PREPARED_FOR_SHUTDOWN → SHUTTING_DOWN → SHUT_DOWN`. -/
def LifeStatus.rank : LifeStatus → Nat
  | .ALIVE => 0
  | .PREPARED_FOR_SHUTDOWN => 1
  | .SHUTTING_DOWN => 2
  | .SHUT_DOWN => 3

/-! ## Group (external collaborator, modelled from the spec contract) -/

/-- Modelled from the spec: the per-application-group state machine
(spec 4.3), of which the pool consumes only the listed contract.  It
holds the enabled/disabling/disabled worker lists, the per-group wait
list, the spawn state (`spawningCount`), and the restart flag.
`restartCalls` counts invocations of `Group.restart` so that the pool
theorems can observe whether restart was delegated. -/
structure Group where
  name : String
  secret : String
  options : Options
  enabledProcesses : List Process
  disablingProcesses : List Process
  disabledProcesses : List Process
  getWaitlist : List GetWaiter
  spawningCount : Nat
  restarting : Bool
  restartCalls : Nat
deriving DecidableEq, Repr

/-- Modelled from the spec: `Group::capacityUsed()` counts the workers
the group holds against the pool-wide budget: its enabled and disabling
workers plus the processes currently being spawned. -/
def Group.capacityUsed (g : Group) : Nat :=
  g.enabledProcesses.length + g.disablingProcesses.length + g.spawningCount

/-- Modelled from the spec: `Group::spawn()` starts spawning one more
worker; the worker being spawned counts towards `capacityUsed`. -/
def Group.spawn (g : Group) : Group :=
  { g with spawningCount := g.spawningCount + 1 }

/-- Modelled from the spec: `Group::isWaitingForCapacity()` holds for a
group that has waiters but could not yet acquire any capacity at all. -/
def Group.isWaitingForCapacity (g : Group) : Bool :=
  !g.getWaitlist.isEmpty && g.capacityUsed == 0

/-- Modelled from the spec: `Group::shouldSpawn()` holds for a group that
has waiters and is not already spawning a worker. -/
def Group.shouldSpawn (g : Group) : Bool :=
  !g.getWaitlist.isEmpty && g.spawningCount == 0

/-- Modelled from the spec: `Group::get(options, callback)` either returns
a session synchronously (routing to an idle enabled worker, or a noop
pseudo-session) or enqueues the callback on the group's own wait list; a
group with no capacity at all additionally starts spawning a worker. -/
def Group.get (g : Group) (opts : Options) (cb : GetCallback) :
    Option Session × Group :=
  if opts.noop then
    (some { groupName := g.name, processGupid := "", noop := true }, g)
  else
    match g.enabledProcesses.find? (fun p => p.busyness == 0) with
    | some pr =>
        let bump : Process → Process := fun q =>
          if q.gupid == pr.gupid
          then { q with busyness := q.busyness + 1, lastUsed := q.lastUsed + 1 }
          else q
        (some { groupName := g.name, processGupid := pr.gupid, noop := false },
         { g with enabledProcesses := g.enabledProcesses.map bump })
    | none =>
        let g1 := { g with getWaitlist := g.getWaitlist ++ [⟨opts, cb⟩] }
        if g.capacityUsed == 0 then (none, g1.spawn) else (none, g1)

/-- Modelled from the spec: `Group::detach(process)` removes the worker
from the group's lists, releasing its capacity. -/
def Group.detach (g : Group) (gupid : String) : Group :=
  { g with
    enabledProcesses := g.enabledProcesses.filter (fun p => p.gupid != gupid),
    disablingProcesses := g.disablingProcesses.filter (fun p => p.gupid != gupid),
    disabledProcesses := g.disabledProcesses.filter (fun p => p.gupid != gupid) }

/-- Modelled from the spec: `Group::restart(options, method)` puts the
group into restarting state; `restartCalls` observes the invocation. -/
def Group.restart (g : Group) : Group :=
  { g with restarting := true, restartCalls := g.restartCalls + 1 }

/-- Modelled from the spec: `Group::disable(process, callback)` returns
immediately for an already-disabled worker, defers (moving the worker to
the disabling list) when another enabled worker can take over, and fails
when the worker is the only enabled one. -/
def Group.disable (g : Group) (pr : Process) : DisableResult × Group :=
  if g.disabledProcesses.any (fun q => q.gupid == pr.gupid) then
    (.DR_NOOP, g)
  else if g.enabledProcesses.length ≥ 2 then
    (.DR_DEFERRED,
     { g with
       enabledProcesses := g.enabledProcesses.filter (fun q => q.gupid != pr.gupid),
       disablingProcesses := g.disablingProcesses ++
         (g.enabledProcesses.filter (fun q => q.gupid == pr.gupid)) })
  else
    (.DR_ERROR, g)

/-- Modelled from the spec: construction of a fresh Group for the given
options (`Group::Group` followed by `Group::initialize`), with empty
worker lists and wait list and no spawn in progress. -/
def newGroup (opts : Options) : Group :=
  { name := opts.appGroupName
    secret := opts.appGroupName
    options := opts
    enabledProcesses := []
    disablingProcesses := []
    disabledProcesses := []
    getWaitlist := []
    spawningCount := 0
    restarting := false
    restartCalls := 0 }

/-! ## GroupMap (modelled from the spec's Group Map requirements) -/

/-- Modelled from the spec: `GroupMap::lookup` by group name (first match
of the unique key). -/
def lookupGroup (gs : List Group) (name : String) : Option Group :=
  gs.find? (fun g => g.name == name)

/-- Modelled from the spec: `GroupMap::insert`. -/
def insertGroup (gs : List Group) (g : Group) : List Group :=
  gs ++ [g]

/-- Modelled from the spec: `GroupMap::erase` by group name. -/
def eraseGroup (gs : List Group) (name : String) : List Group :=
  gs.filter (fun g => g.name != name)

/-- Modelled from the spec: in-place mutation of the uniquely-keyed map
entry named `name` (the source mutates the Group object held in the map;
the embedding replaces the first entry with that name). -/
def updateGroup : List Group → String → Group → List Group
  | [], _, _ => []
  | g :: rest, name, g' =>
      if g.name == name then g' :: rest else g :: updateGroup rest name g'

/-- Modelled from the spec: `GroupMap::lookupRandom`, which may return any
element; the embedding returns the first. -/
def lookupRandomGroup (gs : List Group) : Option Group :=
  gs.head?

/-! ## Pool state -/

/-- The Pool state of Pool.h: the capacity ceiling `max`, `maxIdleTime`,
the self-checking flag, the life status, the group map, and the global
get wait list.  `abortHookInstalled` models whether
`abortLongRunningConnectionsCallback` is non-NULL, and `abortedGupids`
records, in order, the processes on which that hook has been invoked. -/
structure Pool where
  max : Nat
  maxIdleTime : Nat
  selfchecking : Bool
  lifeStatus : LifeStatus
  groups : List Group
  getWaitlist : List GetWaiter
  abortHookInstalled : Bool
  abortedGupids : List String
deriving DecidableEq, Repr

/-- A freshly constructed Pool: `max = 6`,
`maxIdleTime = 60 * 1000000`, `selfchecking = true`, status `ALIVE`,
no groups, empty wait list, no abort hook installed. -/
def newPool : Pool :=
  { max := 6
    maxIdleTime := 60 * 1000000
    selfchecking := true
    lifeStatus := .ALIVE
    groups := []
    getWaitlist := []
    abortHookInstalled := false
    abortedGupids := [] }

/-! ## Pool operations (translated from Pool.h) -/

/-- `Pool::findMatchingGroup(options)`: look the group up by
`options.getAppGroupName()`. -/
def findMatchingGroup (p : Pool) (opts : Options) : Option Group :=
  lookupGroup p.groups opts.appGroupName

/-- `Pool::createGroup(options)`: construct a Group, initialize it
and insert it into the map; returns the created group. -/
def createGroup (p : Pool) (opts : Options) : Group × Pool :=
  let g := newGroup opts
  (g, { p with groups := insertGroup p.groups g })

/-- The post-lock action scheduled when a `Group::get` returned a session
synchronously: `callback(session, nil)`; nothing when the callback went
onto the group's wait list instead. -/
def sessionActions (cb : GetCallback) : Option Session → List Action
  | some s => [.callbackSession cb s]
  | none => []

/-- `Pool::createGroupAndAsyncGetFromIt(options, callback)`: create the
group, delegate the request to its `get`, and schedule the callback if a
session was returned synchronously. -/
def createGroupAndAsyncGetFromIt (p : Pool) (opts : Options) (cb : GetCallback)
    (acts : List Action) : Pool × List Action :=
  let r := (newGroup opts).get opts cb
  ({ p with groups := insertGroup p.groups r.2 },
   acts ++ sessionActions cb r.1)

/-- `Pool::capacityUsedUnlocked()`: a single-group fast path through
`lookupRandom`, otherwise the sum of `group->capacityUsed()` over the
iteration of the map. -/
def capacityUsedUnlocked (p : Pool) : Nat :=
  if p.groups.length == 1 then
    match lookupRandomGroup p.groups with
    | some g => g.capacityUsed
    | none => 0
  else
    p.groups.foldl (fun acc g => acc + g.capacityUsed) 0

/-- `Pool::atFullCapacityUnlocked()`: `capacityUsedUnlocked() >= max`. -/
def atFullCapacityUnlocked (p : Pool) : Bool :=
  decide (p.max ≤ capacityUsedUnlocked p)

/-- `Pool::assignSessionsToGetWaiters`: the body of the loop over the
global wait list, threading the evolving pool, the post-lock actions and
the retained tail `newWaitlist`. -/
def assignLoop : List GetWaiter → Pool → List Action → List GetWaiter →
    Pool × List Action × List GetWaiter
  | [], p, acts, newWl => (p, acts, newWl)
  | w :: rest, p, acts, newWl =>
      match findMatchingGroup p w.options with
      | some g =>
          let r := g.get w.options w.callback
          let p' := { p with groups := updateGroup p.groups g.name r.2 }
          assignLoop rest p' (acts ++ sessionActions w.callback r.1) newWl
      | none =>
          if !(atFullCapacityUnlocked p) then
            let r := createGroupAndAsyncGetFromIt p w.options w.callback acts
            assignLoop rest r.1 r.2 newWl
          else
            assignLoop rest p acts (newWl ++ [w])

/-- `Pool::assignSessionsToGetWaiters(postLockActions)`: scan the whole
wait list and swap in the rebuilt list of retained waiters. -/
def assignSessionsToGetWaiters (p : Pool) (acts : List Action) :
    Pool × List Action :=
  let r := assignLoop p.getWaitlist p acts []
  ({ r.1 with getWaitlist := r.2.2 }, r.2.1)

/-- `Pool::assignExceptionToGetWaiters(getWaitlist, exception,
postLockActions)`: convert every waiter of the given wait list into a
deferred `callback(nil, exception)` action. -/
def assignExceptionToGetWaiters (wl : List GetWaiter) (message : String)
    (acts : List Action) : List Action :=
  acts ++ wl.map (fun w => Action.callbackException w.callback message)

/-- One pass of `Pool::possiblySpawnMoreProcessesForExistingGroups`: walk
the groups (by the name snapshot of a single map traversal), spawn in
each group satisfying `pred`, and stop as soon as the pool reaches full
capacity; the returned flag records the early exit. -/
def spawnPass (pred : Group → Bool) : List String → Pool → Pool × Bool
  | [], p => (p, false)
  | n :: rest, p =>
      match lookupGroup p.groups n with
      | none => spawnPass pred rest p
      | some g =>
          if pred g then
            let p' := { p with groups := updateGroup p.groups n g.spawn }
            if atFullCapacityUnlocked p' then (p', true)
            else spawnPass pred rest p'
          else spawnPass pred rest p

/-- `Pool::possiblySpawnMoreProcessesForExistingGroups()`: first spawn
for every group waiting for capacity, then for every group that should
spawn; an early exit from the first pass returns from the whole
function. -/
def possiblySpawnMoreProcessesForExistingGroups (p : Pool) : Pool :=
  let r := spawnPass Group.isWaitingForCapacity (p.groups.map Group.name) p
  if r.2 then r.1
  else (spawnPass Group.shouldSpawn (r.1.groups.map Group.name) r.1).1

/-- One enabled process is considered against the best idle candidate so
far: idle processes compete by strictly smaller `lastUsed`. -/
def pickIdle (gname : String) (b : Option (String × Process)) (pr : Process) :
    Option (String × Process) :=
  if pr.busyness == 0 then
    match b with
    | none => some (gname, pr)
    | some x => if pr.lastUsed < x.2.lastUsed then some (gname, pr) else x
  else b

/-- Fold of `pickIdle` over one group's enabled processes, skipping the
excluded group. -/
def pickIdleInGroup (exclude : Option String) (b : Option (String × Process))
    (g : Group) : Option (String × Process) :=
  if exclude == some g.name then b
  else g.enabledProcesses.foldl (pickIdle g.name) b

/-- Modelled from the spec: `Pool::findOldestIdleProcess(exclude)` (its
body lives in ProcessUtils.cpp, which is not part of the source tree):
the oldest idle enabled worker across all groups other than `exclude`,
together with its owning group's name. -/
def findOldestIdleProcess (p : Pool) (exclude : Option String) :
    Option (String × Process) :=
  p.groups.foldl (pickIdleInGroup exclude) none

/-- `Pool::forceFreeCapacity(exclude, postLockActions)`: find the oldest
idle worker and force-detach it through its owning group; returns the
detached worker (with its group's name) or nothing. -/
def forceFreeCapacity (p : Pool) (exclude : Option String) :
    Option (String × Process) × Pool :=
  match findOldestIdleProcess p exclude with
  | none => (none, p)
  | some x =>
      match lookupGroup p.groups x.1 with
      | some g =>
          (some x, { p with groups := updateGroup p.groups x.1 (g.detach x.2.gupid) })
      | none => (some x, p)

/-- `Pool::forceDetachGroup(group, callback, postLockActions)`: erase the
group from the map and call `group->shutdown(callback, postLockActions)`,
which registers the `onDone` signal as a deferred action. -/
def forceDetachGroup (p : Pool) (name : String) (acts : List Action) :
    Pool × List Action :=
  ({ p with groups := eraseGroup p.groups name }, acts ++ [.shutdownDone name])

/-- `Pool::asyncGet(options, callback)`: the three cases of the source,
in order — existing group, new group below capacity, and the
full-capacity path through `forceFreeCapacity` that parks a waiter when
no worker could be freed.  The returned action list holds the callbacks
the source runs after releasing the lock, in order. -/
def asyncGet (p : Pool) (opts : Options) (cb : GetCallback) :
    Pool × List Action :=
  match findMatchingGroup p opts with
  | some g =>
      let r := g.get opts cb
      ({ p with groups := updateGroup p.groups g.name r.2 },
       sessionActions cb r.1)
  | none =>
      if !(atFullCapacityUnlocked p) then
        createGroupAndAsyncGetFromIt p opts cb []
      else
        let f := forceFreeCapacity p none
        match f.1 with
        | none =>
            let waiter : GetWaiter :=
              ⟨(opts.copyAndPersist).detachFromUnionStationTransaction, cb⟩
            ({ f.2 with getWaitlist := f.2.getWaitlist ++ [waiter] }, [])
        | some _ =>
            let c := createGroup f.2 opts
            let r := c.1.get opts cb
            ({ c.2 with groups := updateGroup c.2.groups c.1.name r.2 },
             sessionActions cb r.1)

/-- `Pool::setMax(max)`: update the ceiling; when it grew, run
`assignSessionsToGetWaiters` and then
`possiblySpawnMoreProcessesForExistingGroups` before releasing the
lock. -/
def setMax (p : Pool) (m : Nat) : Pool × List Action :=
  let bigger := p.max < m
  let p1 := { p with max := m }
  if bigger then
    let r := assignSessionsToGetWaiters p1 []
    (possiblySpawnMoreProcessesForExistingGroups r.1, r.2)
  else (p1, [])

/-- `Pool::setMaxIdleTime(value)`. -/
def setMaxIdleTime (p : Pool) (v : Nat) : Pool :=
  { p with maxIdleTime := v }

/-- `Pool::enableSelfChecking(enabled)`. -/
def enableSelfChecking (p : Pool) (b : Bool) : Pool :=
  { p with selfchecking := b }

/-- The worker lists of one group, in the order `Pool::getProcesses`
walks them. -/
def groupProcesses (g : Group) : List Process :=
  g.enabledProcesses ++ g.disablingProcesses ++ g.disabledProcesses

/-- The enumeration of `Pool::getProcesses()` over a list of groups:
every worker of every group, tagged with its owning group's name. -/
def allProcesses (gs : List Group) : List (String × Process) :=
  gs.foldr
    (fun g acc => (groupProcesses g).map (fun pr => (g.name, pr)) ++ acc) []

/-- `Pool::getProcesses()`: every worker of every group, tagged with its
owning group's name. -/
def getProcesses (p : Pool) : List (String × Process) :=
  allProcesses p.groups

/-- `Pool::findProcessByGupid(gupid)`: first worker with the given gupid
in the `getProcesses` enumeration. -/
def findProcessByGupid (p : Pool) (gupid : String) : Option (String × Process) :=
  (getProcesses p).find? (fun x => x.2.gupid == gupid)

/-- `Pool::detachProcessUnlocked(process, postLockActions)`: when the
worker is alive, delegate removal to its group and then re-establish the
wait-list invariants through `assignSessionsToGetWaiters` and
`possiblySpawnMoreProcessesForExistingGroups`. -/
def detachProcessUnlocked (p : Pool) (gname : String) (pr : Process) :
    Bool × Pool × List Action :=
  if pr.alive then
    let p1 :=
      match lookupGroup p.groups gname with
      | some g => { p with groups := updateGroup p.groups gname (g.detach pr.gupid) }
      | none => p
    let r := assignSessionsToGetWaiters p1 []
    (true, possiblySpawnMoreProcessesForExistingGroups r.1, r.2)
  else (false, p, [])

/-- `Pool::detachProcess(gupid)`: locate the worker by gupid and detach
it; `false` and no mutation when it does not exist. -/
def detachProcess (p : Pool) (gupid : String) : Bool × Pool × List Action :=
  match findProcessByGupid p gupid with
  | some x => detachProcessUnlocked p x.1 x.2
  | none => (false, p, [])

/-- The error message built by `Pool::detachGroupByName`. -/
def detachedGroupMessage : String := "The containing Group was detached."

/-- `Pool::detachGroupByName(name)`: when the group exists, drain its
wait list into deferred `GetAbortedException` callbacks, force-detach the
group (erasing it from the map and scheduling the shutdown ticket
callback), and run `possiblySpawnMoreProcessesForExistingGroups`; returns
whether the group existed. -/
def detachGroupByName (p : Pool) (name : String) : Bool × Pool × List Action :=
  match lookupGroup p.groups name with
  | some g =>
      let acts0 := assignExceptionToGetWaiters g.getWaitlist detachedGroupMessage []
      let r := forceDetachGroup p name acts0
      (true, possiblySpawnMoreProcessesForExistingGroups r.1, r.2)
  | none => (false, p, [])

/-- `Pool::disableProcess(gupid)`: locate the worker and delegate to
`group->disable`; `DR_NOOP` and no mutation when no such worker exists
anywhere in the pool. -/
def disableProcess (p : Pool) (gupid : String) : DisableResult × Pool :=
  match findProcessByGupid p gupid with
  | none => (.DR_NOOP, p)
  | some x =>
      match lookupGroup p.groups x.1 with
      | none => (.DR_NOOP, p)
      | some g =>
          let r := g.disable x.2
          (r.1, { p with groups := updateGroup p.groups x.1 r.2 })

/-- The loop of `Pool::restartGroupByName(name, method)`: on the first
group carrying the name, restart it unless it is already restarting, and
return `true`; `none` encodes the fall-through `return false`. -/
def restartGroupByNameLoop : List Group → String → Option (List Group)
  | [], _ => none
  | g :: rest, name =>
      if g.name == name then
        some ((if g.restarting then g else g.restart) :: rest)
      else
        match restartGroupByNameLoop rest name with
        | some rest' => some (g :: rest')
        | none => none

/-- `Pool::restartGroupByName(name, method)`. -/
def restartGroupByName (p : Pool) (name : String) : Bool × Pool :=
  match restartGroupByNameLoop p.groups name with
  | some gs => (true, { p with groups := gs })
  | none => (false, p)

/-- The loop of `Pool::restartGroupsByAppRoot(appRoot, method)`: count
and restart every group whose `options.appRoot` matches. -/
def restartByAppRootLoop : List Group → String → Nat × List Group
  | [], _ => (0, [])
  | g :: rest, appRoot =>
      let r := restartByAppRootLoop rest appRoot
      if g.options.appRoot == appRoot then (r.1 + 1, g.restart :: r.2)
      else (r.1, g :: r.2)

/-- `Pool::restartGroupsByAppRoot(appRoot, method)`. -/
def restartGroupsByAppRoot (p : Pool) (appRoot : String) : Nat × Pool :=
  let r := restartByAppRootLoop p.groups appRoot
  (r.1, { p with groups := r.2 })

/-- One iteration of the `foreach` in `Pool::prepareForShutdown`: set the
owning group's `options.minProcesses` to 0 for the given worker and
invoke the abort-long-running-connections hook on it. -/
def abortStep (q : Pool) (x : String × Process) : Pool :=
  let q1 :=
    match lookupGroup q.groups x.1 with
    | some g =>
        let g' := { g with options := { g.options with minProcesses := 0 } }
        { q with groups := updateGroup q.groups x.1 g' }
    | none => q
  { q1 with abortedGupids := q1.abortedGupids ++ [x.2.gupid] }

/-- `Pool::prepareForShutdown()`: requires `lifeStatus == ALIVE`;
advances to `PREPARED_FOR_SHUTDOWN`, and only when the
abort-long-running-connections hook is installed walks all tracked
workers, zeroing their groups' `minProcesses` and invoking the hook. -/
def prepareForShutdown (p : Pool) : Pool :=
  let p1 := { p with lifeStatus := .PREPARED_FOR_SHUTDOWN }
  if p1.abortHookInstalled then (getProcesses p1).foldl abortStep p1
  else p1

/-- The group-removal loop of `Pool::destroy()`: repeatedly pick any
group (`lookupRandom`) and run `detachGroupByName` on it.  The fuel is
the initial number of groups, which bounds the iterations because each
removes one group. -/
def destroyLoop : Nat → Pool → List Action → Pool × List Action
  | 0, p, acts => (p, acts)
  | fuel + 1, p, acts =>
      match lookupRandomGroup p.groups with
      | none => (p, acts)
      | some g =>
          let r := detachGroupByName p g.name
          destroyLoop fuel r.2.1 (acts ++ r.2.2)

/-- `Pool::destroy()`: requires `lifeStatus` in
`{ALIVE, PREPARED_FOR_SHUTDOWN}`; advances to `SHUTTING_DOWN`, removes
every group through `detachGroupByName`, joins the background threads
(not modelled), and advances to `SHUT_DOWN`. -/
def destroy (p : Pool) : Pool × List Action :=
  let p1 := { p with lifeStatus := .SHUTTING_DOWN }
  let r := destroyLoop p1.groups.length p1 []
  ({ r.1 with lifeStatus := .SHUT_DOWN }, r.2)

/-! ## The documented wait-list invariants of Pool.h -/

/-- Invariant 1 of the `getWaitlist` doc comment in Pool.h: for all
options in `getWaitlist`, `options.getAppGroupName()` is not in
`groups`. -/
def poolInvariant1 (p : Pool) : Bool :=
  p.getWaitlist.all
    (fun w => !(p.groups.any (fun g => g.name == w.options.appGroupName)))

/-- Invariant 2 of the `getWaitlist` doc comment in Pool.h: if
`getWaitlist` is non-empty then `atFullCapacity()`. -/
def poolInvariant2 (p : Pool) : Bool :=
  p.getWaitlist.isEmpty || atFullCapacityUnlocked p

/-! ## Traces of public operations -/

/-- A public mutating entry point of the Pool, with its arguments. -/
inductive PoolOp where
  | opAsyncGet (opts : Options) (cb : GetCallback)
  | opSetMax (m : Nat)
  | opSetMaxIdleTime (v : Nat)
  | opEnableSelfChecking (b : Bool)
  | opDetachProcess (gupid : String)
  | opDetachGroupByName (name : String)
  | opDisableProcess (gupid : String)
  | opRestartGroupByName (name : String)
  | opRestartGroupsByAppRoot (appRoot : String)
  | opPrepareForShutdown
  | opDestroy
deriving DecidableEq, Repr

/-- The `assert` precondition each entry point states in the source
(life-status requirements, and `max > 0` for `setMax`). -/
def opPrecondition (p : Pool) : PoolOp → Bool
  | .opAsyncGet _ _ =>
      p.lifeStatus == .ALIVE || p.lifeStatus == .PREPARED_FOR_SHUTDOWN
  | .opSetMax m => decide (0 < m)
  | .opPrepareForShutdown => p.lifeStatus == .ALIVE
  | .opDestroy =>
      p.lifeStatus == .ALIVE || p.lifeStatus == .PREPARED_FOR_SHUTDOWN
  | _ => true

/-- The state reached by one public operation. -/
def applyOp (p : Pool) : PoolOp → Pool
  | .opAsyncGet opts cb => (asyncGet p opts cb).1
  | .opSetMax m => (setMax p m).1
  | .opSetMaxIdleTime v => setMaxIdleTime p v
  | .opEnableSelfChecking b => enableSelfChecking p b
  | .opDetachProcess gupid => (detachProcess p gupid).2.1
  | .opDetachGroupByName name => (detachGroupByName p name).2.1
  | .opDisableProcess gupid => (disableProcess p gupid).2
  | .opRestartGroupByName name => (restartGroupByName p name).2
  | .opRestartGroupsByAppRoot appRoot => (restartGroupsByAppRoot p appRoot).2
  | .opPrepareForShutdown => prepareForShutdown p
  | .opDestroy => (destroy p).1

/-- One step of a trace: the operation runs only when its precondition
admits the call (a call violating the precondition is not part of any
legal trace). -/
def stepOp (p : Pool) (op : PoolOp) : Pool :=
  if opPrecondition p op then applyOp p op else p

/-- The life statuses observed after each operation of a trace. -/
def statusTrace (p : Pool) : List PoolOp → List LifeStatus
  | [] => []
  | op :: rest =>
      let p' := stepOp p op
      p'.lifeStatus :: statusTrace p' rest

/-! ## Concrete states used to evaluate the operations -/

/-- The group name used by the concrete evaluations. -/
def nameM : String := "M"

/-- A second group name used by the concrete evaluations. -/
def nameN : String := "N"

/-- Options requesting app group `M`. -/
def optsM : Options :=
  { appGroupName := nameM, appRoot := "/srv/m", minProcesses := 1
    noop := false, attachedToTransaction := true, persisted := false }

/-- Options requesting app group `N`. -/
def optsN : Options :=
  { appGroupName := nameN, appRoot := "/srv/n", minProcesses := 1
    noop := false, attachedToTransaction := true, persisted := false }

/-- An idle worker (no active sessions). -/
def idleProcess : Process :=
  { pid := 101, gupid := "gupid-101", alive := true, busyness := 0, lastUsed := 5 }

/-- A busy worker. -/
def busyProcess : Process :=
  { pid := 102, gupid := "gupid-102", alive := true, busyness := 1, lastUsed := 9 }

/-- Group `M` holding two busy workers. -/
def groupMBusy : Group :=
  { newGroup optsM with
    enabledProcesses := [{ idleProcess with busyness := 1 }, busyProcess] }

/-- Group `M` holding one idle and one busy worker. -/
def groupMIdle : Group :=
  { newGroup optsM with enabledProcesses := [idleProcess, busyProcess] }

/-- The waiter for group `N` parked on the pool wait list, carrying the
persisted, transaction-detached copy of `optsN`. -/
def parkedWaiter : GetWaiter :=
  ⟨(optsN.copyAndPersist).detachFromUnionStationTransaction, 1⟩

/-- A pool at full capacity (`max = 2`, group `M` with two busy workers)
with a waiter for the absent group `N` parked on the pool wait list.
Both documented wait-list invariants hold in this state. -/
def poolFullBusy : Pool :=
  { newPool with max := 2, groups := [groupMBusy], getWaitlist := [parkedWaiter] }

/-- A pool at full capacity (`max = 2`, group `M` with one idle and one
busy worker) with a waiter for the absent group `N` parked on the pool
wait list.  Both documented wait-list invariants hold in this state. -/
def poolFullIdle : Pool :=
  { newPool with max := 2, groups := [groupMIdle], getWaitlist := [parkedWaiter] }

/-- A pool holding one group `M` (with one idle worker) whose options ask
for `minProcesses = 3`, and no abort hook installed. -/
def poolNoHook : Pool :=
  { newPool with
    groups := [{ newGroup { optsM with minProcesses := 3 } with
                 enabledProcesses := [idleProcess] }] }

/-- The same pool with the abort-long-running-connections hook
installed. -/
def poolWithHook : Pool :=
  { poolNoHook with abortHookInstalled := true }

/-- A pool holding one group `M` that is already restarting. -/
def poolRestarting : Pool :=
  { newPool with groups := [{ newGroup optsM with restarting := true }] }

/-- Group `M` with two waiters parked on its own (group-level) wait
list. -/
def groupMWaiters : Group :=
  { newGroup optsM with getWaitlist := [⟨optsM, 7⟩, ⟨optsM, 8⟩] }

/-- A pool holding only `groupMWaiters`. -/
def poolGroupWaiters : Pool :=
  { newPool with groups := [groupMWaiters] }

/-- The value of a group's capacity summation, the specification side of
the capacity-arithmetic refinement (`capacityUsed == Σ
group.capacityUsed()`). -/
def sumGroupCapacity (gs : List Group) : Nat :=
  (gs.map Group.capacityUsed).sum

/-- A gupid carried by no worker of the concrete pools. -/
def missingGupid : String := "gupid-404"

/-- The app root of `optsM`. -/
def rootM : String := "/srv/m"

/-- The part of a group that `prepareForShutdown` never alters: its name
and its three worker lists. -/
def groupShape (g : Group) : String × List Process × List Process × List Process :=
  (g.name, g.enabledProcesses, g.disablingProcesses, g.disabledProcesses)

/-! ## General lemmas about the embedded operations -/

theorem foldl_add_capacityUsed (gs : List Group) (a : Nat) :
    gs.foldl (fun acc g => acc + g.capacityUsed) a = a + sumGroupCapacity gs := by
  induction gs generalizing a with
  | nil => simp [sumGroupCapacity]
  | cons g rest ih =>
      simp only [List.foldl_cons, ih, sumGroupCapacity, List.map_cons, List.sum_cons]
      omega

theorem lookupGroup_erase (gs : List Group) (n : String) :
    lookupGroup (eraseGroup gs n) n = none := by
  apply List.find?_eq_none.mpr
  intro g hg
  have h1 := List.of_mem_filter hg
  simp only [bne_iff_ne, ne_eq] at h1
  simpa using h1

theorem updateGroup_mem {gs : List Group} {n : String} {g' h : Group}
    (hm : h ∈ updateGroup gs n g') : h = g' ∨ h ∈ gs := by
  induction gs with
  | nil => simp [updateGroup] at hm
  | cons g rest ih =>
      rw [updateGroup] at hm
      by_cases hg : (g.name == n) = true
      · rw [if_pos hg] at hm
        rcases List.mem_cons.mp hm with h1 | h2
        · exact Or.inl h1
        · exact Or.inr (List.mem_cons_of_mem _ h2)
      · rw [if_neg hg] at hm
        rcases List.mem_cons.mp hm with h1 | h2
        · exact Or.inr (h1 ▸ List.mem_cons_self _ _)
        · rcases ih h2 with h3 | h4
          · exact Or.inl h3
          · exact Or.inr (List.mem_cons_of_mem _ h4)

theorem updateGroup_map {α : Type} (f : Group → α) (gs : List Group) (n : String)
    (g' : Group) (hf : ∀ g, lookupGroup gs n = some g → f g' = f g) :
    (updateGroup gs n g').map f = gs.map f := by
  induction gs with
  | nil => rfl
  | cons g rest ih =>
      rw [updateGroup]
      by_cases hg : (g.name == n) = true
      · have hl : lookupGroup (g :: rest) n = some g := by
          simp [lookupGroup, List.find?_cons_of_pos, hg]
        rw [if_pos hg]
        simp [hf g hl]
      · have hl : lookupGroup (g :: rest) n = lookupGroup rest n := by
          simp only [lookupGroup]
          exact List.find?_cons_of_neg _ hg
        rw [if_neg hg]
        simp [ih (fun g2 h2 => hf g2 (hl ▸ h2))]

theorem spawnPass_fields (pred : Group → Bool) (l : List String) (p : Pool) :
    (spawnPass pred l p).1.max = p.max ∧
    (spawnPass pred l p).1.lifeStatus = p.lifeStatus ∧
    (spawnPass pred l p).1.getWaitlist = p.getWaitlist ∧
    (spawnPass pred l p).1.groups.map Group.name = p.groups.map Group.name := by
  induction l generalizing p with
  | nil => exact ⟨rfl, rfl, rfl, rfl⟩
  | cons n rest ih =>
      simp only [spawnPass]
      split
      · exact ih p
      · rename_i g hl
        have hmap : (updateGroup p.groups n g.spawn).map Group.name
            = p.groups.map Group.name := by
          apply updateGroup_map
          intro g2 h2
          rw [hl] at h2
          cases h2
          rfl
        split
        · split
          · exact ⟨rfl, rfl, rfl, hmap⟩
          · have h := ih { p with groups := updateGroup p.groups n g.spawn }
            exact ⟨h.1, h.2.1, h.2.2.1, h.2.2.2.trans hmap⟩
        · exact ih p

theorem possiblySpawn_fields (p : Pool) :
    (possiblySpawnMoreProcessesForExistingGroups p).max = p.max ∧
    (possiblySpawnMoreProcessesForExistingGroups p).lifeStatus = p.lifeStatus ∧
    (possiblySpawnMoreProcessesForExistingGroups p).getWaitlist = p.getWaitlist ∧
    (possiblySpawnMoreProcessesForExistingGroups p).groups.map Group.name
      = p.groups.map Group.name := by
  simp only [possiblySpawnMoreProcessesForExistingGroups]
  split
  · exact spawnPass_fields _ _ _
  · have h1 := spawnPass_fields Group.isWaitingForCapacity (p.groups.map Group.name) p
    have h2 := spawnPass_fields Group.shouldSpawn
      (((spawnPass Group.isWaitingForCapacity (p.groups.map Group.name) p).1).groups.map
        Group.name)
      ((spawnPass Group.isWaitingForCapacity (p.groups.map Group.name) p).1)
    exact ⟨h2.1.trans h1.1, h2.2.1.trans h1.2.1, h2.2.2.1.trans h1.2.2.1,
      h2.2.2.2.trans h1.2.2.2⟩

theorem assignLoop_fields (wl : List GetWaiter) (p : Pool) (acts : List Action)
    (newWl : List GetWaiter) :
    (assignLoop wl p acts newWl).1.max = p.max ∧
    (assignLoop wl p acts newWl).1.lifeStatus = p.lifeStatus := by
  induction wl generalizing p acts newWl with
  | nil => exact ⟨rfl, rfl⟩
  | cons w rest ih =>
      simp only [assignLoop]
      split
      · exact ih _ _ _
      · split
        · exact ih _ _ _
        · exact ih _ _ _

theorem assignSessions_fields (p : Pool) (acts : List Action) :
    (assignSessionsToGetWaiters p acts).1.max = p.max ∧
    (assignSessionsToGetWaiters p acts).1.lifeStatus = p.lifeStatus := by
  exact assignLoop_fields p.getWaitlist p acts []

theorem forceFreeCapacity_fields (p : Pool) (e : Option String) :
    (forceFreeCapacity p e).2.max = p.max ∧
    (forceFreeCapacity p e).2.lifeStatus = p.lifeStatus ∧
    (forceFreeCapacity p e).2.getWaitlist = p.getWaitlist := by
  unfold forceFreeCapacity
  split
  · exact ⟨rfl, rfl, rfl⟩
  · split
    · exact ⟨rfl, rfl, rfl⟩
    · exact ⟨rfl, rfl, rfl⟩

theorem forceFreeCapacity_none (p : Pool) (e : Option String) :
    (forceFreeCapacity p e).1 = none → (forceFreeCapacity p e).2 = p := by
  unfold forceFreeCapacity
  split
  · intro _; rfl
  · split
    · intro h; simp at h
    · intro h; simp at h

theorem asyncGet_fields (p : Pool) (opts : Options) (cb : GetCallback) :
    (asyncGet p opts cb).1.max = p.max ∧
    (asyncGet p opts cb).1.lifeStatus = p.lifeStatus := by
  simp only [asyncGet]
  split
  · exact ⟨rfl, rfl⟩
  · split
    · exact ⟨rfl, rfl⟩
    · split
      · exact ⟨(forceFreeCapacity_fields p none).1, (forceFreeCapacity_fields p none).2.1⟩
      · exact ⟨(forceFreeCapacity_fields p none).1, (forceFreeCapacity_fields p none).2.1⟩

theorem setMax_fields (p : Pool) (m : Nat) :
    (setMax p m).1.max = m ∧ (setMax p m).1.lifeStatus = p.lifeStatus := by
  simp only [setMax]
  split
  · constructor
    · exact (possiblySpawn_fields _).1.trans (assignSessions_fields _ _).1
    · exact (possiblySpawn_fields _).2.1.trans (assignSessions_fields _ _).2
  · exact ⟨rfl, rfl⟩

theorem setMax_noop (q : Pool) (m : Nat) (h : q.max = m) : setMax q m = (q, []) := by
  simp only [setMax]
  rw [if_neg]
  · rw [← h]
  · rw [h]
    exact lt_irrefl m

/-! ## The claims -/

/-- C7: for every state of the groups map, `capacityUsedUnlocked` equals
the sum of `Group.capacityUsed` over all groups — in particular the
single-group fast path via `lookupRandom` returns the same value as the
general summation loop, and an empty map yields 0 — and
`atFullCapacityUnlocked` is true exactly when that sum is at least
`max`. -/
theorem capacityUsed_refinement (p : Pool) :
    capacityUsedUnlocked p = sumGroupCapacity p.groups ∧
    (atFullCapacityUnlocked p = true ↔ p.max ≤ sumGroupCapacity p.groups) := by
  have h : capacityUsedUnlocked p = sumGroupCapacity p.groups := by
    unfold capacityUsedUnlocked
    rcases hg : p.groups with _ | ⟨g1, _ | ⟨g2, rest⟩⟩
    · simp [sumGroupCapacity]
    · simp [lookupRandomGroup, sumGroupCapacity]
    · rw [if_neg]
      · rw [foldl_add_capacityUsed]
        omega
      · simp
  refine ⟨h, ?_⟩
  simp [atFullCapacityUnlocked, h]

/-- C10: `disableProcess(gupid)` called with a gupid for which no worker
exists anywhere in the pool returns `DR_NOOP` and leaves the entire pool
state unchanged: no group operation runs and no callback is scheduled. -/
theorem disableProcess_missing_noop (p : Pool) (gupid : String)
    (h : findProcessByGupid p gupid = none) :
    disableProcess p gupid = (DisableResult.DR_NOOP, p) := by
  unfold disableProcess
  rw [h]

/-- Witness for C10: no worker of `poolFullBusy` carries `missingGupid`,
and disabling it is a no-op. -/
theorem disableProcess_missing_noop_witness :
    findProcessByGupid poolFullBusy missingGupid = none ∧
    disableProcess poolFullBusy missingGupid = (DisableResult.DR_NOOP, poolFullBusy) :=
  ⟨by decide, disableProcess_missing_noop poolFullBusy missingGupid (by decide)⟩

/-- C6: for every `m ≥ 1`, running `setMax(m)` a second time is
observationally a no-op: the pool state is unchanged and no deferred
action (no session assignment, no spawning) is produced, because the
second call sees `max == m` and skips the ceiling-increased branch. -/
theorem setMax_idempotent (p : Pool) (m : Nat) (h : 1 ≤ m) :
    setMax (setMax p m).1 m = ((setMax p m).1, []) :=
  setMax_noop (setMax p m).1 m (setMax_fields p m).1

/-- Witness for C6 at a concrete pool and a concrete ceiling. -/
theorem setMax_idempotent_witness :
    setMax (setMax poolFullBusy 5).1 5 = ((setMax poolFullBusy 5).1, []) :=
  setMax_idempotent poolFullBusy 5 (by decide)

/-- C2 (code bug): `poolFullBusy` satisfies both documented wait-list
invariants and is ALIVE, yet after `detachGroupByName` removes group `M`
the waiter for `N` is still parked while `capacityUsed() = 0 < max = 2`:
`detachGroupByName` never reruns `assignSessionsToGetWaiters`, violating
Invariant 2 / P1, which the source documents on the `getWaitlist`
field. -/
theorem detachGroupByName_violates_invariant2 :
    poolInvariant1 poolFullBusy = true ∧
    poolInvariant2 poolFullBusy = true ∧
    poolFullBusy.lifeStatus = LifeStatus.ALIVE ∧
    (detachGroupByName poolFullBusy nameM).1 = true ∧
    (detachGroupByName poolFullBusy nameM).2.1.getWaitlist = [parkedWaiter] ∧
    capacityUsedUnlocked (detachGroupByName poolFullBusy nameM).2.1 = 0 ∧
    (detachGroupByName poolFullBusy nameM).2.1.max = 2 ∧
    poolInvariant2 (detachGroupByName poolFullBusy nameM).2.1 = false := by
  decide

/-- C3 (code bug): `poolFullIdle` satisfies both documented wait-list
invariants and is ALIVE, yet `asyncGet` for the absent group `N`
force-frees the idle worker of `M` and creates group `N` while the old
waiter for `N` stays parked on the pool wait list: a parked waiter now
names an existing group, violating Invariant 1 / P2, which the source
documents on the `getWaitlist` field. -/
theorem asyncGet_violates_invariant1 :
    poolInvariant1 poolFullIdle = true ∧
    poolInvariant2 poolFullIdle = true ∧
    poolFullIdle.lifeStatus = LifeStatus.ALIVE ∧
    (asyncGet poolFullIdle optsN 2).1.getWaitlist = [parkedWaiter] ∧
    (lookupGroup (asyncGet poolFullIdle optsN 2).1.groups nameN).isSome = true ∧
    poolInvariant1 (asyncGet poolFullIdle optsN 2).1 = false := by
  decide

/-- C4 counterexample: with no abort hook installed,
`prepareForShutdown` advances the life status but leaves the tracked
worker's group at `options.minProcesses = 3`, contradicting the claim
that it is set to 0 for each tracked process. -/
theorem prepareForShutdown_counterexample :
    poolNoHook.lifeStatus = LifeStatus.ALIVE ∧
    (getProcesses poolNoHook).length = 1 ∧
    (prepareForShutdown poolNoHook).lifeStatus = LifeStatus.PREPARED_FOR_SHUTDOWN ∧
    (prepareForShutdown poolNoHook).groups.map (fun g => g.options.minProcesses)
      = [3] := by
  decide

/-- C5 counterexample: the only group of `poolRestarting` is already
restarting, yet `restartGroupsByAppRoot` still delegates `Group.restart`
to it (its restart-call count rises from 0 to 1), contradicting the
claim that matching groups are restarted only when not already
restarting. -/
theorem restartGroupsByAppRoot_counterexample :
    poolRestarting.groups.map Group.restarting = [true] ∧
    poolRestarting.groups.map Group.restartCalls = [0] ∧
    (restartGroupsByAppRoot poolRestarting rootM).1 = 1 ∧
    (restartGroupsByAppRoot poolRestarting rootM).2.groups.map Group.restartCalls
      = [1] := by
  decide

theorem lookupGroup_isSome_iff (gs : List Group) (n : String) :
    (lookupGroup gs n).isSome = true ↔ ∃ g ∈ gs, g.name = n := by
  rw [lookupGroup, List.find?_isSome]
  simp

theorem updateGroup_self {gs : List Group} {n : String} {g : Group}
    (h : lookupGroup gs n = some g) : updateGroup gs n g = gs := by
  induction gs with
  | nil => rfl
  | cons g0 rest ih =>
      rw [updateGroup]
      by_cases hg : (g0.name == n) = true
      · have hl : lookupGroup (g0 :: rest) n = some g0 :=
          List.find?_cons_of_pos _ hg
        rw [hl] at h
        cases h
        rw [if_pos hg]
      · have hl : lookupGroup (g0 :: rest) n = lookupGroup rest n :=
          List.find?_cons_of_neg _ hg
        rw [hl] at h
        rw [if_neg hg, ih h]

theorem lookupGroup_none_congr {gs1 gs2 : List Group} {n : String}
    (hmap : gs1.map Group.name = gs2.map Group.name)
    (h : lookupGroup gs2 n = none) : lookupGroup gs1 n = none := by
  apply List.find?_eq_none.mpr
  intro g hg
  have hmem : g.name ∈ gs2.map Group.name := by
    rw [← hmap]
    exact List.mem_map_of_mem _ hg
  rcases List.mem_map.mp hmem with ⟨g2, hg2, hname⟩
  have h2 := List.find?_eq_none.mp h g2 hg2
  simp only [beq_iff_eq] at h2 ⊢
  rw [← hname]
  exact h2

theorem restartByAppRootLoop_spec (gs : List Group) (appRoot : String) :
    restartByAppRootLoop gs appRoot =
      ((gs.filter (fun g => g.options.appRoot == appRoot)).length,
       gs.map (fun g => if g.options.appRoot == appRoot then g.restart else g)) := by
  induction gs with
  | nil => rfl
  | cons g rest ih =>
      simp only [restartByAppRootLoop, ih]
      by_cases hg : (g.options.appRoot == appRoot) = true
      · simp only [beq_iff_eq] at hg
        simp [hg, List.filter_cons]
      · have hg2 := hg
        simp only [beq_iff_eq] at hg2
        simp [hg, hg2, List.filter_cons]

theorem restartGroupByNameLoop_spec (gs : List Group) (name : String) :
    restartGroupByNameLoop gs name =
      (lookupGroup gs name).map
        (fun g => updateGroup gs name (if g.restarting then g else g.restart)) := by
  induction gs with
  | nil => rfl
  | cons g rest ih =>
      simp only [restartGroupByNameLoop]
      by_cases hg : (g.name == name) = true
      · have hl : lookupGroup (g :: rest) name = some g :=
          List.find?_cons_of_pos _ hg
        rw [if_pos hg, hl]
        simp only [Option.map_some']
        rw [updateGroup, if_pos hg]
      · have hl : lookupGroup (g :: rest) name = lookupGroup rest name :=
          List.find?_cons_of_neg _ hg
        rw [if_neg hg, hl, ih]
        cases lookupGroup rest name with
        | none => simp
        | some g0 =>
            simp only [Option.map_some']
            rw [updateGroup, if_neg hg]

/-- C5 amended: `restartGroupByName(name, method)` returns true exactly
when a group named `name` exists and calls `Group.restart` on it only
when it is not already restarting (an already-restarting group is left
untouched); `restartGroupsByAppRoot(root, method)` returns the number of
groups whose `options.appRoot` equals `root` and calls `Group.restart`
on every one of them, even those already restarting. -/
theorem restartGroups_spec (p : Pool) (name appRoot : String) :
    ((restartGroupByName p name).1 = true ↔ ∃ g ∈ p.groups, g.name = name) ∧
    (∀ g, lookupGroup p.groups name = some g → g.restarting = true →
        (restartGroupByName p name).2 = p) ∧
    (∀ g, lookupGroup p.groups name = some g → g.restarting = false →
        (restartGroupByName p name).2.groups = updateGroup p.groups name g.restart) ∧
    ((restartGroupsByAppRoot p appRoot).1 =
      (p.groups.filter (fun g => g.options.appRoot == appRoot)).length) ∧
    ((restartGroupsByAppRoot p appRoot).2.groups =
      p.groups.map (fun g => if g.options.appRoot == appRoot then g.restart else g)) := by
  have hbn := restartGroupByNameLoop_spec p.groups name
  refine ⟨?_, ?_, ?_, ?_, ?_⟩
  · rw [← lookupGroup_isSome_iff]
    unfold restartGroupByName
    rw [hbn]
    cases lookupGroup p.groups name with
    | none => simp
    | some g => simp
  · intro g hl hr
    unfold restartGroupByName
    rw [hbn, hl]
    simp only [Option.map_some']
    rw [hr]
    simp only [if_true]
    show ({ p with groups := updateGroup p.groups name g } : Pool) = p
    rw [updateGroup_self hl]
  · intro g hl hr
    unfold restartGroupByName
    rw [hbn, hl]
    simp only [Option.map_some']
    rw [hr]
    simp only [Bool.false_eq_true, if_false]
  · unfold restartGroupsByAppRoot
    rw [restartByAppRootLoop_spec]
  · unfold restartGroupsByAppRoot
    rw [restartByAppRootLoop_spec]

/-- Witness for C5 at a concrete pool: the already-restarting group `M`
is left untouched by `restartGroupByName`, which still returns true. -/
theorem restartGroups_spec_witness :
    (restartGroupByName poolRestarting nameM).2 = poolRestarting :=
  (restartGroups_spec poolRestarting nameM rootM).2.1
    ({ newGroup optsM with restarting := true }) (by decide) (by decide)

/-- C9: `detachGroupByName(name)` returns true iff a group named `name`
existed; in that case every waiter of that group's wait list becomes a
deferred `callback(nil, GetAbortedException)` action carrying the
message "The containing Group was detached.", followed by the shutdown
ticket signal, the group is absent from the resulting map, and the pool
wait list is untouched; when no such group exists nothing changes. -/
theorem detachGroupByName_spec (p : Pool) (name : String) :
    ((detachGroupByName p name).1 = true ↔ ∃ g ∈ p.groups, g.name = name) ∧
    (∀ g, lookupGroup p.groups name = some g →
      (detachGroupByName p name).2.2 =
        g.getWaitlist.map
          (fun w => Action.callbackException w.callback detachedGroupMessage)
        ++ [Action.shutdownDone name] ∧
      lookupGroup (detachGroupByName p name).2.1.groups name = none ∧
      (detachGroupByName p name).2.1.getWaitlist = p.getWaitlist) ∧
    ((detachGroupByName p name).1 = false → detachGroupByName p name = (false, p, [])) := by
  refine ⟨?_, ?_, ?_⟩
  · rw [← lookupGroup_isSome_iff]
    unfold detachGroupByName
    cases lookupGroup p.groups name with
    | none => simp
    | some g => simp
  · intro g hl
    unfold detachGroupByName
    rw [hl]
    refine ⟨?_, ?_, ?_⟩
    · simp [assignExceptionToGetWaiters, forceDetachGroup]
    · exact lookupGroup_none_congr (possiblySpawn_fields _).2.2.2
        (lookupGroup_erase p.groups name)
    · exact (possiblySpawn_fields _).2.2.1
  · unfold detachGroupByName
    cases lookupGroup p.groups name with
    | none => intro _; rfl
    | some g => intro h; simp at h

/-- Witness for C9 at a concrete pool whose group `M` holds two
waiters. -/
theorem detachGroupByName_spec_witness :
    (detachGroupByName poolGroupWaiters nameM).2.2 =
      groupMWaiters.getWaitlist.map
        (fun w => Action.callbackException w.callback detachedGroupMessage)
      ++ [Action.shutdownDone nameM] ∧
    lookupGroup (detachGroupByName poolGroupWaiters nameM).2.1.groups nameM = none ∧
    (detachGroupByName poolGroupWaiters nameM).2.1.getWaitlist
      = poolGroupWaiters.getWaitlist :=
  (detachGroupByName_spec poolGroupWaiters nameM).2.1 groupMWaiters (by decide)

/-- C1: for every `asyncGet(options, callback)` call made while
`lifeStatus` is ALIVE or PREPARED_FOR_SHUTDOWN, the cases are evaluated
in this order: if a group named `options.appGroupName` exists the
request is delegated to that group's `get`; otherwise, if
`capacityUsed() < max`, a new group is created for the options and the
request delegated to it; otherwise `forceFreeCapacity` is attempted,
and only when it frees no worker is a waiter appended to the pool
`getWaitlist` carrying the deep-persisted, transaction-detached copy of
the options and the callback — when a worker was freed, the missing
group is created and the request delegated to it instead, leaving the
pool `getWaitlist` untouched. -/
theorem asyncGet_case_order (p : Pool) (opts : Options) (cb : GetCallback)
    (halive : p.lifeStatus = LifeStatus.ALIVE ∨
              p.lifeStatus = LifeStatus.PREPARED_FOR_SHUTDOWN) :
    (∀ g, findMatchingGroup p opts = some g →
      asyncGet p opts cb =
        ({ p with groups := updateGroup p.groups g.name (g.get opts cb).2 },
         sessionActions cb (g.get opts cb).1)) ∧
    (findMatchingGroup p opts = none → capacityUsedUnlocked p < p.max →
      asyncGet p opts cb = createGroupAndAsyncGetFromIt p opts cb []) ∧
    (findMatchingGroup p opts = none → p.max ≤ capacityUsedUnlocked p →
      (forceFreeCapacity p none).1 = none →
      asyncGet p opts cb =
        ({ p with getWaitlist := p.getWaitlist ++
            [⟨(opts.copyAndPersist).detachFromUnionStationTransaction, cb⟩] }, [])) ∧
    (findMatchingGroup p opts = none → p.max ≤ capacityUsedUnlocked p →
      ∀ x, (forceFreeCapacity p none).1 = some x →
      asyncGet p opts cb =
        ({ (forceFreeCapacity p none).2 with groups :=
            (updateGroup
              (insertGroup (forceFreeCapacity p none).2.groups (newGroup opts))
              (newGroup opts).name ((newGroup opts).get opts cb).2) },
         sessionActions cb ((newGroup opts).get opts cb).1) ∧
      (asyncGet p opts cb).1.getWaitlist = p.getWaitlist) := by
  refine ⟨?_, ?_, ?_, ?_⟩
  · intro g hg
    unfold asyncGet
    rw [hg]
  · intro hg hc
    have hfull : atFullCapacityUnlocked p = false := by
      unfold atFullCapacityUnlocked
      rw [decide_eq_false_iff_not]
      omega
    unfold asyncGet
    rw [hg]
    simp [hfull]
  · intro hg hc hf
    have hfull : atFullCapacityUnlocked p = true := by
      unfold atFullCapacityUnlocked
      simp
      omega
    have hp := forceFreeCapacity_none p none hf
    unfold asyncGet
    rw [hg]
    simp [hfull, hf, hp]
  · intro hg hc x hf
    have hfull : atFullCapacityUnlocked p = true := by
      unfold atFullCapacityUnlocked
      simp
      omega
    have heq : asyncGet p opts cb =
        ({ (forceFreeCapacity p none).2 with groups :=
            (updateGroup
              (insertGroup (forceFreeCapacity p none).2.groups (newGroup opts))
              (newGroup opts).name ((newGroup opts).get opts cb).2) },
         sessionActions cb ((newGroup opts).get opts cb).1) := by
      unfold asyncGet
      rw [hg]
      simp [hfull, hf, createGroup]
    refine ⟨heq, ?_⟩
    rw [heq]
    exact (forceFreeCapacity_fields p none).2.2

/-- Witness for C1 at `poolFullBusy` (ALIVE, at full capacity, no idle
worker, no group `N`): the parking case applies and appends the
persisted waiter. -/
theorem asyncGet_case_order_witness :
    asyncGet poolFullBusy optsN 2 =
      ({ poolFullBusy with getWaitlist := poolFullBusy.getWaitlist ++
          [⟨(optsN.copyAndPersist).detachFromUnionStationTransaction, 2⟩] }, []) :=
  (asyncGet_case_order poolFullBusy optsN 2 (Or.inl rfl)).2.2.1
    (by decide) (by decide) (by decide)

theorem detachProcessUnlocked_lifeStatus (p : Pool) (gname : String) (pr : Process) :
    (detachProcessUnlocked p gname pr).2.1.lifeStatus = p.lifeStatus := by
  simp only [detachProcessUnlocked]
  split
  · refine (possiblySpawn_fields _).2.1.trans ((assignSessions_fields _ _).2.trans ?_)
    split
    · rfl
    · rfl
  · rfl

theorem detachProcess_lifeStatus (p : Pool) (gupid : String) :
    (detachProcess p gupid).2.1.lifeStatus = p.lifeStatus := by
  unfold detachProcess
  split
  · exact detachProcessUnlocked_lifeStatus _ _ _
  · rfl

theorem detachGroupByName_lifeStatus (p : Pool) (name : String) :
    (detachGroupByName p name).2.1.lifeStatus = p.lifeStatus := by
  unfold detachGroupByName
  split
  · exact (possiblySpawn_fields _).2.1
  · rfl

theorem disableProcess_lifeStatus (p : Pool) (gupid : String) :
    (disableProcess p gupid).2.lifeStatus = p.lifeStatus := by
  unfold disableProcess
  split
  · rfl
  · split
    · rfl
    · rfl

theorem restartGroupByName_lifeStatus (p : Pool) (name : String) :
    (restartGroupByName p name).2.lifeStatus = p.lifeStatus := by
  unfold restartGroupByName
  split
  · rfl
  · rfl

theorem abortFold_lifeStatus (l : List (String × Process)) (q : Pool) :
    (l.foldl abortStep q).lifeStatus = q.lifeStatus := by
  induction l generalizing q with
  | nil => rfl
  | cons x rest ih =>
      rw [List.foldl_cons]
      refine (ih _).trans ?_
      simp only [abortStep]
      split
      · rfl
      · rfl

theorem prepareForShutdown_lifeStatus (p : Pool) :
    (prepareForShutdown p).lifeStatus = LifeStatus.PREPARED_FOR_SHUTDOWN := by
  simp only [prepareForShutdown]
  split
  · exact abortFold_lifeStatus _ _
  · rfl

theorem rank_le_three (s : LifeStatus) : s.rank ≤ 3 := by
  cases s <;> simp [LifeStatus.rank]

theorem stepOp_rank_mono (p : Pool) (op : PoolOp) :
    p.lifeStatus.rank ≤ (stepOp p op).lifeStatus.rank := by
  unfold stepOp
  split
  · rename_i hpre
    cases op with
    | opAsyncGet opts cb =>
        simp only [applyOp]
        rw [(asyncGet_fields p opts cb).2]
    | opSetMax m =>
        simp only [applyOp]
        rw [(setMax_fields p m).2]
    | opSetMaxIdleTime v => exact le_refl _
    | opEnableSelfChecking b => exact le_refl _
    | opDetachProcess gupid =>
        simp only [applyOp]
        rw [detachProcess_lifeStatus]
    | opDetachGroupByName name =>
        simp only [applyOp]
        rw [detachGroupByName_lifeStatus]
    | opDisableProcess gupid =>
        simp only [applyOp]
        rw [disableProcess_lifeStatus]
    | opRestartGroupByName name =>
        simp only [applyOp]
        rw [restartGroupByName_lifeStatus]
    | opRestartGroupsByAppRoot appRoot => exact le_refl _
    | opPrepareForShutdown =>
        simp only [opPrecondition, beq_iff_eq] at hpre
        simp only [applyOp]
        rw [prepareForShutdown_lifeStatus, hpre]
        simp [LifeStatus.rank]
    | opDestroy =>
        simp only [applyOp]
        exact rank_le_three _
  · exact le_refl _

/-- C8: across every trace of public Pool operations whose preconditions
admit them, the sequence of life statuses is non-decreasing along the
order ALIVE, PREPARED_FOR_SHUTDOWN, SHUTTING_DOWN, SHUT_DOWN:
`prepareForShutdown` and `destroy` only advance the status and no
operation ever moves it back. -/
theorem lifeStatus_monotone (p : Pool) (ops : List PoolOp) :
    List.Chain' (fun a b => LifeStatus.rank a ≤ LifeStatus.rank b)
      (p.lifeStatus :: statusTrace p ops) := by
  induction ops generalizing p with
  | nil => simp [statusTrace]
  | cons op rest ih =>
      simp only [statusTrace]
      rw [List.chain'_cons]
      exact ⟨stepOp_rank_mono p op, ih (stepOp p op)⟩

theorem abortStep_gupids (q : Pool) (x : String × Process) :
    (abortStep q x).abortedGupids = q.abortedGupids ++ [x.2.gupid] := by
  simp only [abortStep]
  split
  · rfl
  · rfl

theorem abortFold_gupids (l : List (String × Process)) (q : Pool) :
    (l.foldl abortStep q).abortedGupids =
      q.abortedGupids ++ l.map (fun x => x.2.gupid) := by
  induction l generalizing q with
  | nil => simp
  | cons x rest ih =>
      rw [List.foldl_cons, ih, abortStep_gupids]
      simp

theorem abortStep_shape (q : Pool) (x : String × Process) :
    (abortStep q x).groups.map groupShape = q.groups.map groupShape := by
  simp only [abortStep]
  split
  · rename_i g hl
    apply updateGroup_map
    intro g2 h2
    rw [hl] at h2
    cases h2
    rfl
  · rfl

theorem abortFold_shape (l : List (String × Process)) (q : Pool) :
    (l.foldl abortStep q).groups.map groupShape = q.groups.map groupShape := by
  induction l generalizing q with
  | nil => rfl
  | cons x rest ih => rw [List.foldl_cons, ih, abortStep_shape]

theorem map_name_eq_of_map_shape {gs1 gs2 : List Group}
    (h : gs1.map groupShape = gs2.map groupShape) :
    gs1.map Group.name = gs2.map Group.name := by
  have h1 : ∀ gs : List Group, gs.map Group.name = (gs.map groupShape).map Prod.fst := by
    intro gs
    rw [List.map_map]
    rfl
  rw [h1, h, ← h1]

theorem abortStep_zero_preserved (q : Pool) (x : String × Process) (gn : String)
    (hz : ∀ g ∈ q.groups, g.name = gn → g.options.minProcesses = 0) :
    ∀ g ∈ (abortStep q x).groups, g.name = gn → g.options.minProcesses = 0 := by
  simp only [abortStep]
  split
  · rename_i g0 hl
    intro g hg hname
    rcases updateGroup_mem hg with h1 | h2
    · rw [h1]
    · exact hz g h2 hname
  · exact hz

theorem abortFold_zero_preserved (l : List (String × Process)) (q : Pool) (gn : String)
    (hz : ∀ g ∈ q.groups, g.name = gn → g.options.minProcesses = 0) :
    ∀ g ∈ (l.foldl abortStep q).groups, g.name = gn → g.options.minProcesses = 0 := by
  induction l generalizing q with
  | nil => exact hz
  | cons x rest ih =>
      rw [List.foldl_cons]
      exact ih _ (abortStep_zero_preserved q x gn hz)

theorem updateGroup_named_unique {gs : List Group} {n : String} {g0 g' : Group}
    (hnd : (gs.map Group.name).Nodup)
    (hl : lookupGroup gs n = some g0) (hname : g'.name = n) :
    ∀ g ∈ updateGroup gs n g', g.name = n → g = g' := by
  induction gs with
  | nil =>
      intro g hg
      cases hg
  | cons a rest ih =>
      rw [List.map_cons, List.nodup_cons] at hnd
      rw [updateGroup]
      by_cases ha : (a.name == n) = true
      · rw [if_pos ha]
        intro g hg hgname
        rcases List.mem_cons.mp hg with h1 | h2
        · exact h1
        · exfalso
          apply hnd.1
          rw [show a.name = n from beq_iff_eq.mp ha, ← hgname]
          exact List.mem_map_of_mem _ h2
      · rw [if_neg ha]
        have hl2 : lookupGroup rest n = some g0 := by
          have he : lookupGroup (a :: rest) n = lookupGroup rest n :=
            List.find?_cons_of_neg _ ha
          rw [← he]
          exact hl
        intro g hg hgname
        rcases List.mem_cons.mp hg with h1 | h2
        · exfalso
          apply ha
          rw [beq_iff_eq, ← h1]
          exact hgname
        · exact ih hnd.2 hl2 g h2 hgname

theorem abortStep_zero_establish (q : Pool) (x : String × Process)
    (hnd : (q.groups.map Group.name).Nodup) :
    ∀ g ∈ (abortStep q x).groups, g.name = x.1 → g.options.minProcesses = 0 := by
  simp only [abortStep]
  split
  · rename_i g0 hl
    intro g hg hname
    have hl' : List.find? (fun g2 => g2.name == x.1) q.groups = some g0 := hl
    have hp := List.find?_some hl'
    have hg0 : g0.name = x.1 := by simpa using hp
    have hgu := @updateGroup_named_unique q.groups x.1 g0
      { g0 with options := { g0.options with minProcesses := 0 } }
      hnd hl hg0 g hg hname
    rw [hgu]
  · rename_i hl
    intro g hg hname
    exfalso
    have hno := List.find?_eq_none.mp hl g hg
    simp only [beq_iff_eq] at hno
    exact hno hname

theorem abortFold_zero (l : List (String × Process)) (q : Pool) (gn : String)
    (pr : Process) (hmem : (gn, pr) ∈ l)
    (hnd : (q.groups.map Group.name).Nodup) :
    ∀ g ∈ (l.foldl abortStep q).groups, g.name = gn → g.options.minProcesses = 0 := by
  induction l generalizing q with
  | nil => cases hmem
  | cons x rest ih =>
      rw [List.foldl_cons]
      rcases List.mem_cons.mp hmem with h1 | h2
      · have hx : x.1 = gn := by rw [← h1]
        apply abortFold_zero_preserved
        intro g hg hname
        exact abortStep_zero_establish q x hnd g hg (by rw [hname, ← hx])
      · refine ih (abortStep q x) h2 ?_
        rw [map_name_eq_of_map_shape (abortStep_shape q x)]
        exact hnd

theorem mem_allProcesses {gs : List Group} {g : Group} {pr : Process}
    (hg : g ∈ gs) (hpr : pr ∈ groupProcesses g) :
    (g.name, pr) ∈ allProcesses gs := by
  induction gs with
  | nil => cases hg
  | cons a rest ih =>
      simp only [allProcesses, List.foldr_cons]
      rcases List.mem_cons.mp hg with h1 | h2
      · subst h1
        exact List.mem_append_left _ (List.mem_map_of_mem _ hpr)
      · exact List.mem_append_right _ (ih h2)

/-- C4 amended: `prepareForShutdown()` (requiring `lifeStatus == ALIVE`)
sets `lifeStatus` to PREPARED_FOR_SHUTDOWN; when an
abort-long-running-connections hook is installed it invokes the hook on
every tracked worker (in `getProcesses` order) and zeroes the owning
group's `options.minProcesses` for each of them, so every group holding
at least one worker ends with `minProcesses = 0`; when no hook is
installed, neither the groups (in particular their `minProcesses`) nor
the hook-invocation record change. -/
theorem prepareForShutdown_spec (p : Pool)
    (h : p.lifeStatus = LifeStatus.ALIVE) :
    (prepareForShutdown p).lifeStatus = LifeStatus.PREPARED_FOR_SHUTDOWN ∧
    (p.abortHookInstalled = false →
      (prepareForShutdown p).groups = p.groups ∧
      (prepareForShutdown p).abortedGupids = p.abortedGupids) ∧
    (p.abortHookInstalled = true →
      (prepareForShutdown p).abortedGupids =
        p.abortedGupids ++ (getProcesses p).map (fun x => x.2.gupid) ∧
      ((p.groups.map Group.name).Nodup →
        ∀ g ∈ (prepareForShutdown p).groups, groupProcesses g ≠ [] →
          g.options.minProcesses = 0)) := by
  refine ⟨prepareForShutdown_lifeStatus p, ?_, ?_⟩
  · intro hfalse
    refine ⟨?_, ?_⟩
    · simp [prepareForShutdown, hfalse]
    · simp [prepareForShutdown, hfalse]
  · intro htrue
    refine ⟨?_, ?_⟩
    · simp only [prepareForShutdown, htrue, if_true]
      exact abortFold_gupids _ _
    · intro hnd g hg hne
      simp only [prepareForShutdown] at hg
      have hcond : ({ p with lifeStatus := LifeStatus.PREPARED_FOR_SHUTDOWN } :
          Pool).abortHookInstalled = true := htrue
      rw [if_pos hcond] at hg
      rcases List.exists_mem_of_ne_nil _ hne with ⟨pr, hpr⟩
      have hshape := abortFold_shape
        (getProcesses { p with lifeStatus := LifeStatus.PREPARED_FOR_SHUTDOWN })
        { p with lifeStatus := LifeStatus.PREPARED_FOR_SHUTDOWN }
      have hmem1 : groupShape g ∈
          ((getProcesses { p with lifeStatus := LifeStatus.PREPARED_FOR_SHUTDOWN }).foldl
            abortStep { p with lifeStatus := LifeStatus.PREPARED_FOR_SHUTDOWN }).groups.map
            groupShape :=
        List.mem_map_of_mem _ hg
      rw [hshape] at hmem1
      rcases List.mem_map.mp hmem1 with ⟨g1, hg1, hsh⟩
      have hname : g1.name = g.name := congrArg Prod.fst hsh
      have h1 : g1.enabledProcesses = g.enabledProcesses := congrArg (fun t => t.2.1) hsh
      have h2 : g1.disablingProcesses = g.disablingProcesses :=
        congrArg (fun t => t.2.2.1) hsh
      have h3 : g1.disabledProcesses = g.disabledProcesses :=
        congrArg (fun t => t.2.2.2) hsh
      have hpr1 : pr ∈ groupProcesses g1 := by
        unfold groupProcesses
        rw [h1, h2, h3]
        exact hpr
      have hmem2 : (g1.name, pr) ∈
          getProcesses { p with lifeStatus := LifeStatus.PREPARED_FOR_SHUTDOWN } :=
        mem_allProcesses hg1 hpr1
      have hz := abortFold_zero
        (getProcesses { p with lifeStatus := LifeStatus.PREPARED_FOR_SHUTDOWN })
        { p with lifeStatus := LifeStatus.PREPARED_FOR_SHUTDOWN }
        g1.name pr hmem2 hnd
      exact hz g hg hname.symm

/-- Witness for C4 at the concrete pool with the hook installed: the
single tracked worker is reported to the hook. -/
theorem prepareForShutdown_spec_witness :
    (prepareForShutdown poolWithHook).abortedGupids =
      poolWithHook.abortedGupids ++
        (getProcesses poolWithHook).map (fun x => x.2.gupid) :=
  ((prepareForShutdown_spec poolWithHook rfl).2.2 rfl).1

end ApplicationPool2
